import Mathlib

/-!
Shallow embedding of `src/media-segment-request.js`: the segment-acquisition
pipeline of an HLS client.  JavaScript callbacks become pure Lean functions
returning the mutated descriptor plus the events they emit; byte buffers are
`List Nat`; the fragmented-mp4 inspector (an external collaborator) is a
function parameter.
-/

namespace MSR

/-- `REQUEST_ERRORS.FAILURE` -/
def FAILURE : Int := 2
/-- `REQUEST_ERRORS.TIMEOUT` -/
def TIMEOUT : Int := -101
/-- `REQUEST_ERRORS.ABORTED` -/
def ABORTED : Int := -102

/-- Error record built by `handleErrors` and the handlers: status code,
message, classification code (the `xhr` back-reference is dropped). -/
structure ErrorRecord where
  status : Nat
  message : String
  code : Int
deriving Repr, DecidableEq

/-- Transport request/response as the handlers observe it:  flags and fields
read off the xhr object.  `response` is the body as bytes; for the media
segment request (`responseType: text`) `responseText` is the same data, and
`substring` on the binary string is `List.drop` here. -/
structure Request where
  timedout : Bool
  aborted : Bool
  status : Nat
  uri : String
  response : List Nat
  bandwidth : Option Nat
  bytesReceived : Nat
  roundTripTime : Nat
deriving Repr, DecidableEq

/-- `handleErrors(error, request)`: timeout, then aborted, then generic
failure, else null. -/
def handleErrors (error : Bool) (request : Request) : Option ErrorRecord :=
  if request.timedout then
    some { status := request.status
           message := "HLS request timed-out at URL: " ++ request.uri
           code := TIMEOUT }
  else if request.aborted then
    some { status := request.status
           message := "HLS request aborted at URL: " ++ request.uri
           code := ABORTED }
  else if error then
    some { status := request.status
           message := "HLS request errored at URL: " ++ request.uri
           code := FAILURE }
  else
    none

/-- `errors.reduce((prev, err) => err.code > prev.code ? err : prev)` on a
non-empty list: the JS reduce without seed starts from the head. -/
def mostImportant (e : ErrorRecord) (es : List ErrorRecord) : ErrorRecord :=
  es.foldl (fun prev err => if err.code > prev.code then err else prev) e

/-- `getMostImportantError(errors)`; JS `reduce` throws on an empty array, so
the empty case is `none`. -/
def getMostImportantError (errors : List ErrorRecord) : Option ErrorRecord :=
  match errors with
  | [] => none
  | e :: es => some (mostImportant e es)

/-- Key sub-record (`segment.key`): uri, iv, and the key bytes once fetched
(four 32-bit words). -/
structure KeyRec where
  resolvedUri : String
  iv : List Nat
  bytes : Option (List Nat)
deriving Repr, DecidableEq

/-- Init-segment sub-record (`segment.map`). -/
structure MapRec where
  resolvedUri : String
  bytes : Option (List Nat)
deriving Repr, DecidableEq

/-- Transport statistics (`segment.stats`).  `bandwidth = none` stands for
the JS `Infinity` produced on a zero round-trip time. -/
structure Stats where
  bandwidth : Option Nat
  bytesReceived : Nat
  roundTripTime : Nat
  firstBytesReceivedAt : Option Nat
deriving Repr, DecidableEq

/-- The mutable segment descriptor threaded through every handler.
`boxes` is the opaque parser state carried between incremental mp4 parses;
`lastReachedChar` is the byte cursor. -/
structure Segment where
  resolvedUri : String
  requestId : Nat
  key : Option KeyRec
  map : Option MapRec
  lastReachedChar : Nat
  stats : Option Stats
  bytes : Option (List Nat)
  encryptedBytes : Option (List Nat)
  boxes : Option (List Nat)
  endOfAllRequests : Option Nat
deriving Repr, DecidableEq

/-- `DataView.getUint32` big-endian at byte offset `i` (bytes past the end
read as 0; the handlers only use in-range offsets). -/
def getUint32 (bytesList : List Nat) (i : Nat) : Nat :=
  bytesList.getD i 0 * 2 ^ 24 + bytesList.getD (i + 1) 0 * 2 ^ 16 +
    bytesList.getD (i + 2) 0 * 2 ^ 8 + bytesList.getD (i + 3) 0

/-- `handleKeyResponse(segment, finishProcessingFn)`: the handler body, as
`(error passed to finishProcessingFn, segment after mutation)`. -/
def handleKeyResponse (segment : Segment) (error : Bool) (request : Request) :
    Option ErrorRecord × Segment :=
  match handleErrors error request with
  | some errorObj => (some errorObj, segment)
  | none =>
    if request.response.length ≠ 16 then
      (some { status := request.status
              message := "Invalid HLS key at URL: " ++ request.uri
              code := FAILURE }, segment)
    else
      (none,
       { segment with
           key := segment.key.map (fun k =>
             { k with bytes := some [getUint32 request.response 0,
                                     getUint32 request.response 4,
                                     getUint32 request.response 8,
                                     getUint32 request.response 12] }) })

/-- `handleInitSegmentResponse(segment, finishProcessingFn)`: the handler
body. -/
def handleInitSegmentResponse (segment : Segment) (error : Bool) (request : Request) :
    Option ErrorRecord × Segment :=
  match handleErrors error request with
  | some errorObj => (some errorObj, segment)
  | none =>
    if request.response.length = 0 then
      (some { status := request.status
              message := "Empty HLS segment content at URL: " ++ request.uri
              code := FAILURE }, segment)
    else
      (none,
       { segment with
           map := segment.map.map (fun m => { m with bytes := some request.response }) })

/-- `getRequestStats(request)`. -/
def getRequestStats (request : Request) : Stats :=
  { bandwidth := request.bandwidth
    bytesReceived := request.bytesReceived
    roundTripTime := request.roundTripTime
    firstBytesReceivedAt := none }

/-- `handleSegmentResponse(segment, finishProcessingFn)`: the handler body.
`newBytes` is `responseText.substring(segment.lastReachedChar || 0)`. -/
def handleSegmentResponse (segment : Segment) (error : Bool) (request : Request) :
    Option ErrorRecord × Segment :=
  match handleErrors error request with
  | some errorObj => (some errorObj, segment)
  | none =>
    let newBytes := request.response.drop segment.lastReachedChar
    if request.response.length = 0 then
      (some { status := request.status
              message := "Empty HLS segment content at URL: " ++ request.uri
              code := FAILURE }, segment)
    else
      let segment1 := { segment with stats := some (getRequestStats request) }
      if segment1.key.isSome then
        (none, { segment1 with encryptedBytes := some newBytes })
      else
        (none, { segment1 with bytes := some newBytes })

/-- Result of one call to the external mp4 inspector
(`boxParsers.inspectMp4`): decoded output bytes, new opaque parser state,
and the number of input bytes consumed. -/
structure InspectResult where
  bytes : List Nat
  boxes : List Nat
  numUsedBytes : Nat
deriving Repr, DecidableEq

/-- The external mp4 inspector collaborator:
`(data, isEndOfSegment, prior boxes) ↦ result`.  Out of scope of this
repository; passed as a parameter. -/
abbrev InspectFn := List Nat → Bool → Option (List Nat) → InspectResult

/-- Outcome of one Parse Dispatcher call (`handleDecryptedBytes`): mutated
segment, the data chunks handed to `dataFn`, and the returned consumed byte
count. -/
structure DispatchResult where
  seg : Segment
  dataEvents : List (List Nat)
  consumed : Nat
deriving Repr, DecidableEq

/-- `parseMp4AndNotify`: run the inspector, emit `result.bytes` to `dataFn`
when non-empty, store `result.boxes` back, return `result.numUsedBytes`. -/
def parseMp4AndNotify (f : InspectFn) (segment : Segment) (bytesIn : List Nat)
    (isFinal : Bool) : DispatchResult :=
  let result := f bytesIn isFinal segment.boxes
  { seg := { segment with boxes := some result.boxes }
    dataEvents := if result.bytes.length ≠ 0 then [result.bytes] else []
    consumed := result.numUsedBytes }

/-- `handleDecryptedBytes`: route to the mp4 parser when the segment has an
init-segment sub-record, else push to the transmuxer (whose asynchronous
callbacks are modelled separately in `transmuxOnDone`) and report the whole
buffer consumed.  `isFinal` is the negation of the source's `isPartial`
flag. -/
def handleDecryptedBytes (f : InspectFn) (segment : Segment) (bytesIn : List Nat)
    (isFinal : Bool) : DispatchResult :=
  match segment.map with
  | some _ => parseMp4AndNotify f segment bytesIn isFinal
  | none => { seg := segment, dataEvents := [], consumed := bytesIn.length }

/-- Stats produced by `getProgressStats(progressEvent)`:
`roundTripTime = now - requestTime`, `bandwidth = floor(loaded / rtt * 8000)`
(`none` = Infinity when the round-trip time is 0). -/
def getProgressStats (loaded now requestTime : Nat) : Stats :=
  let rtt := now - requestTime
  { bandwidth := if rtt = 0 then none else some (loaded * 8 * 1000 / rtt)
    bytesReceived := loaded
    roundTripTime := rtt
    firstBytesReceivedAt := none }

/-- `videojs.mergeOptions(segment.stats, getProgressStats(event))`: the new
progress fields override, `firstBytesReceivedAt` (absent from the new
object) is kept. -/
def mergeStats (old : Option Stats) (progress : Stats) : Stats :=
  { bandwidth := progress.bandwidth
    bytesReceived := progress.bytesReceived
    roundTripTime := progress.roundTripTime
    firstBytesReceivedAt := (old.map Stats.firstBytesReceivedAt).getD none }

/-- The progress handler's guard:
`!segment.key && (!segment.map || segment.map.bytes)`. -/
def canPartialParse (segment : Segment) : Bool :=
  !segment.key.isSome &&
    (!segment.map.isSome || ((segment.map.map MapRec.bytes).getD none).isSome)

/-- One dispatched buffer, as handed to `handleDecryptedBytes` from the
progress path: the delta bytes, whether the call was partial, and the
consumed count it returned. -/
structure DispatchCall where
  bytes : List Nat
  wasPartial : Bool
  consumed : Nat
deriving Repr, DecidableEq

/-- Outcome of `handleProgress`: mutated segment and the dispatcher call it
made, if any. -/
structure ProgressResult where
  seg : Segment
  dispatch : Option DispatchCall
deriving Repr, DecidableEq

/-- `handleProgress(segment, progressFn, dataFn)` applied to one progress
event: `responseText` is the request's text so far, `loaded` the event's
byte count, `now` the clock, `requestTime` the request start time. -/
def handleProgress (f : InspectFn) (segment : Segment) (responseText : List Nat)
    (loaded now requestTime : Nat) : ProgressResult :=
  let step :=
    if canPartialParse segment then
      let newBytes := responseText.drop segment.lastReachedChar
      let d := handleDecryptedBytes f segment newBytes false
      ({ d.seg with lastReachedChar := d.seg.lastReachedChar + d.consumed },
       some { bytes := newBytes, wasPartial := true, consumed := d.consumed })
    else (segment, none)
  let seg1 := step.1
  let stats1 := mergeStats seg1.stats (getProgressStats loaded now requestTime)
  let stats2 :=
    if stats1.firstBytesReceivedAt.isNone && stats1.bytesReceived ≠ 0 then
      { stats1 with firstBytesReceivedAt := some now }
    else stats1
  { seg := { seg1 with stats := some stats2 }, dispatch := step.2 }

/-- State of the completion tracker closure in `waitForCompletion`:
accumulated errors, completion count, and the number of `abortAll`
invocations so far (each tracked request's `abort()` is called once per
`abortAll` invocation). -/
structure TrackerState where
  errors : List ErrorRecord
  count : Nat
  abortCalls : Nat
deriving Repr, DecidableEq

/-- The tracker's initial closure state (`errors = [], count = 0`). -/
def initTracker : TrackerState := { errors := [], count := 0, abortCalls := 0 }

/-- The three terminal hand-off paths of the completion tracker. -/
inductive Handoff where
  | reportError : ErrorRecord → Handoff
  | decrypt : Handoff
  | dispatchFinal : Option (List Nat) → Handoff
deriving Repr, DecidableEq

/-- The hand-off decision at the final completion: worst accumulated error
if any, else the decryption client if `segment.encryptedBytes` is set, else
dispatch `segment.bytes` with `isPartial = false`. -/
def handoffFor (errors : List ErrorRecord) (segment : Segment) : Handoff :=
  match errors with
  | e :: es => .reportError (mostImportant e es)
  | [] =>
    if segment.encryptedBytes.isSome then .decrypt
    else .dispatchFinal segment.bytes

/-- One invocation of the callback returned by `waitForCompletion`, for a
tracker over `n` active requests: on an error, `abortAll` runs and the error
is appended; the count then increments, and when it reaches `n` the hand-off
fires. -/
def waitStep (n : Nat) (s : TrackerState) (inv : Option ErrorRecord × Segment) :
    TrackerState × Option Handoff :=
  let s1 :=
    match inv.1 with
    | some e => { s with abortCalls := s.abortCalls + 1, errors := s.errors ++ [e] }
    | none => s
  let s2 := { s1 with count := s1.count + 1 }
  if s2.count = n then (s2, some (handoffFor s2.errors inv.2))
  else (s2, none)

/-- Run the tracker callback over a sequence of request completions,
collecting the hand-off (if any) each invocation emitted. -/
def waitRun (n : Nat) (s : TrackerState) (invs : List (Option ErrorRecord × Segment)) :
    TrackerState × List (Option Handoff) :=
  match invs with
  | [] => (s, [])
  | inv :: rest =>
    let step := waitStep n s inv
    let tail := waitRun n step.1 rest
    (tail.1, step.2 :: tail.2)

/-- One reply on the decryption worker channel: correlation id
(`event.data.source`) and the decrypted view
(`bytes`, `byteOffset`, `byteLength`). -/
structure DecryptReply where
  source : Nat
  bytes : List Nat
  byteOffset : Nat
  byteLength : Nat
deriving Repr, DecidableEq

/-- `new Uint8Array(decrypted.bytes, decrypted.byteOffset,
decrypted.byteLength)`. -/
def installDecrypted (reply : DecryptReply) : List Nat :=
  (reply.bytes.drop reply.byteOffset).take reply.byteLength

/-- State of `decryptSegment`'s listener on the shared worker channel. -/
structure DecryptState where
  listenerRegistered : Bool
  seg : Segment
  dispatches : List DispatchCall
deriving Repr, DecidableEq

/-- `decryptSegment` right after `addEventListener`: listener registered,
nothing dispatched. -/
def decryptStart (segment : Segment) : DecryptState :=
  { listenerRegistered := true, seg := segment, dispatches := [] }

/-- Delivery of one worker message: if the listener is still registered and
the correlation id matches, deregister, install the decrypted bytes as
`segment.bytes`, and dispatch them with `isPartial = false`; otherwise
nothing happens. -/
def decryptionMessageStep (f : InspectFn) (s : DecryptState) (reply : DecryptReply) :
    DecryptState :=
  if s.listenerRegistered then
    if reply.source = s.seg.requestId then
      let decryptedBytes := installDecrypted reply
      let seg1 := { s.seg with bytes := some decryptedBytes }
      let d := handleDecryptedBytes f seg1 decryptedBytes true
      { listenerRegistered := false
        seg := d.seg
        dispatches := s.dispatches ++
          [{ bytes := decryptedBytes, wasPartial := false, consumed := d.consumed }] }
    else s
  else s

/-- All replies arriving on the channel, in order. -/
def decryptRun (f : InspectFn) (s : DecryptState) (replies : List DecryptReply) :
    DecryptState :=
  replies.foldl (decryptionMessageStep f) s

/-- The final transmuxer result as seen by `transmuxAndNotify`'s `onDone`
callback: presence of audio/video timing information (their content is
opaque here). -/
structure TransmuxDoneResult where
  audioTimingInfo : Option (Nat × Nat)
  videoTimingInfo : Option (Nat × Nat)
deriving Repr, DecidableEq

/-- A call to the caller's `doneFn`. -/
structure DoneCall where
  error : Option ErrorRecord
  seg : Segment
  result : TransmuxDoneResult
deriving Repr, DecidableEq

/-- The `onDone` closure inside `transmuxAndNotify`: ignore the completion
when neither timing info is present, do nothing when no `doneFn` was given,
else call `doneFn(null, segment, result)`. -/
def transmuxOnDone (hasDoneFn : Bool) (segment : Segment)
    (result : TransmuxDoneResult) : Option DoneCall :=
  if result.audioTimingInfo.isNone && result.videoTimingInfo.isNone then none
  else if !hasDoneFn then none
  else some { error := none, seg := segment, result := result }

/-! Concrete fixtures used by witnesses and examples. -/

/-- A bare descriptor: no key, no init segment, cursor at 0. -/
def sampleSeg : Segment :=
  { resolvedUri := "s.ts", requestId := 7, key := none, map := none
    lastReachedChar := 0, stats := none, bytes := none, encryptedBytes := none
    boxes := none, endOfAllRequests := none }

/-- A key sub-record with no bytes fetched yet. -/
def sampleKey : KeyRec := { resolvedUri := "k.key", iv := [1, 2, 3, 4], bytes := none }

/-- A descriptor carrying `sampleKey`. -/
def segWithKey : Segment := { sampleSeg with key := some sampleKey }

/-- A successful 16-byte key response. -/
def request16 : Request :=
  { timedout := false, aborted := false, status := 200, uri := "k.key"
    response := List.range 16, bandwidth := none, bytesReceived := 16
    roundTripTime := 1 }

/-- A successful 15-byte key response. -/
def request15 : Request := { request16 with response := List.range 15 }

/-- A successful 4-byte media response. -/
def request4 : Request :=
  { timedout := false, aborted := false, status := 200, uri := "s.ts"
    response := [10, 11, 12, 13], bandwidth := some 9, bytesReceived := 4
    roundTripTime := 2 }

/-- A successful empty media response. -/
def request0 : Request := { request4 with response := [] }

def errFailure : ErrorRecord := { status := 500, message := "f", code := FAILURE }
def errFailure2 : ErrorRecord := { status := 502, message := "f2", code := FAILURE }
def errTimeout : ErrorRecord := { status := 0, message := "t", code := TIMEOUT }
def errAborted1 : ErrorRecord := { status := 0, message := "a1", code := ABORTED }
def errAborted2 : ErrorRecord := { status := 0, message := "a2", code := ABORTED }

/-- An inspector that consumes nothing and produces nothing: a legal
collaborator behaviour (incomplete first box). -/
def idleInspect : InspectFn := fun _ _ prior => ⟨[], prior.getD [], 0⟩

/-! ## C9: empty transmuxer completion is ignored -/

/-- C9: when the final transmuxer result carries neither audio nor video
timing information, `onDone` never calls the caller's `doneFn`; and whenever
`doneFn` is called, at least one timing info is present and the error passed
is null. -/
theorem transmux_empty_completion_ignored (hasDoneFn : Bool) (segment : Segment)
    (result : TransmuxDoneResult) :
    (result.audioTimingInfo = none → result.videoTimingInfo = none →
      transmuxOnDone hasDoneFn segment result = none) ∧
    (∀ c, transmuxOnDone hasDoneFn segment result = some c →
      (result.audioTimingInfo.isSome ∨ result.videoTimingInfo.isSome) ∧
        c.error = none) := by
  constructor
  · intro ha hv
    simp [transmuxOnDone, ha, hv]
  · intro c hc
    unfold transmuxOnDone at hc
    split at hc
    · exact absurd hc (by simp)
    · split at hc
      · exact absurd hc (by simp)
      · rename_i hav hd
        obtain rfl : ({ error := none, seg := segment, result := result } : DoneCall) = c :=
          Option.some.inj hc
        refine ⟨?_, rfl⟩
        cases hA : result.audioTimingInfo with
        | some a => exact Or.inl (by simp [hA])
        | none =>
          cases hV : result.videoTimingInfo with
          | some v => exact Or.inr (by simp [hV])
          | none => exact absurd (by simp [hA, hV]) hav

/-! ## C10: every response handler is atomic on error -/

/-- C10: whenever a handler (key, init-segment, media-segment) forwards a
non-null error record, it returns the descriptor unmodified: no key bytes,
init bytes, raw/encrypted bytes or stats were written. -/
theorem handlers_atomic_on_error (segment : Segment) (error : Bool)
    (request : Request) :
    (∀ e, (handleKeyResponse segment error request).1 = some e →
      (handleKeyResponse segment error request).2 = segment) ∧
    (∀ e, (handleInitSegmentResponse segment error request).1 = some e →
      (handleInitSegmentResponse segment error request).2 = segment) ∧
    (∀ e, (handleSegmentResponse segment error request).1 = some e →
      (handleSegmentResponse segment error request).2 = segment) := by
  refine ⟨?_, ?_, ?_⟩
  · intro e he
    cases herr : handleErrors error request with
    | some eo => simp [handleKeyResponse, herr]
    | none =>
      simp only [handleKeyResponse, herr] at he ⊢
      by_cases h : request.response.length ≠ 16
      · simp [h]
      · simp [h] at he
  · intro e he
    cases herr : handleErrors error request with
    | some eo => simp [handleInitSegmentResponse, herr]
    | none =>
      simp only [handleInitSegmentResponse, herr] at he ⊢
      by_cases h : request.response.length = 0
      · simp [h]
      · simp [h] at he
  · intro e he
    cases herr : handleErrors error request with
    | some eo => simp [handleSegmentResponse, herr]
    | none =>
      simp only [handleSegmentResponse, herr] at he ⊢
      by_cases h : request.response.length = 0
      · simp [h]
      · simp only [if_neg h] at he
        cases hk : segment.key.isSome <;> simp [hk] at he

/-! ## C6: key response handler -/

/-- C6: a 16-byte key body is stored as the four big-endian 32-bit words at
offsets 0, 4, 8, 12 (in order) on the key sub-record and a null error is
passed on; any other length yields a Failure-classified error and leaves the
descriptor (hence the key bytes field) untouched. -/
theorem key_handler_parses_16_byte_key (segment : Segment) (k : KeyRec)
    (request : Request) (hk : segment.key = some k)
    (ht : request.timedout = false) (ha : request.aborted = false) :
    (request.response.length = 16 →
      handleKeyResponse segment false request =
        (none,
         { segment with
             key := some { k with bytes :=
               (some [getUint32 request.response 0, getUint32 request.response 4,
                      getUint32 request.response 8, getUint32 request.response 12]) } })) ∧
    (request.response.length ≠ 16 →
      (handleKeyResponse segment false request).1 =
        some { status := request.status
               message := "Invalid HLS key at URL: " ++ request.uri
               code := FAILURE } ∧
      (handleKeyResponse segment false request).2 = segment) := by
  have herr : handleErrors false request = none := by
    simp [handleErrors, ht, ha]
  constructor
  · intro h16
    simp only [handleKeyResponse, herr]
    rw [if_neg (by simp [h16])]
    simp [hk]
  · intro hne
    simp only [handleKeyResponse, herr]
    rw [if_pos hne]
    exact ⟨rfl, rfl⟩

/-- C6 witness: the 16-byte and 15-byte cases at concrete inputs. -/
theorem key_handler_parses_16_byte_key_witness :
    (handleKeyResponse segWithKey false request16 =
      (none,
       { segWithKey with
           key := some { sampleKey with bytes :=
             (some [getUint32 request16.response 0, getUint32 request16.response 4,
                    getUint32 request16.response 8, getUint32 request16.response 12]) } })) ∧
    (handleKeyResponse segWithKey false request15).2 = segWithKey :=
  ⟨(key_handler_parses_16_byte_key segWithKey sampleKey request16 rfl rfl rfl).1 rfl,
   ((key_handler_parses_16_byte_key segWithKey sampleKey request15 rfl rfl rfl).2
     (by decide)).2⟩

/-! ## C5: media-segment response handler populates exactly one buffer -/

/-- C5: after a successful, non-empty media-segment response, exactly one of
`bytes`/`encryptedBytes` is populated, chosen solely by key presence, with
the delta bytes from the cursor; a successful empty body yields a
Failure-classified error and populates neither field. -/
theorem segment_response_one_buffer (segment : Segment) (request : Request)
    (hb : segment.bytes = none) (he : segment.encryptedBytes = none)
    (ht : request.timedout = false) (ha : request.aborted = false) :
    (request.response.length ≠ 0 →
      (handleSegmentResponse segment false request).1 = none ∧
      ((handleSegmentResponse segment false request).2.encryptedBytes.isSome ↔
        segment.key.isSome) ∧
      ((handleSegmentResponse segment false request).2.bytes.isSome ↔
        ¬ segment.key.isSome) ∧
      (segment.key.isSome →
        (handleSegmentResponse segment false request).2.encryptedBytes =
          some (request.response.drop segment.lastReachedChar)) ∧
      (¬ segment.key.isSome →
        (handleSegmentResponse segment false request).2.bytes =
          some (request.response.drop segment.lastReachedChar))) ∧
    (request.response.length = 0 →
      (∃ e, (handleSegmentResponse segment false request).1 = some e ∧
        e.code = FAILURE) ∧
      (handleSegmentResponse segment false request).2 = segment) := by
  have herr : handleErrors false request = none := by
    simp [handleErrors, ht, ha]
  constructor
  · intro hne
    simp only [handleSegmentResponse, herr]
    rw [if_neg hne]
    cases hk : segment.key.isSome <;> simp_all
  · intro h0
    simp only [handleSegmentResponse, herr]
    rw [if_pos h0]
    exact ⟨⟨_, rfl, rfl⟩, rfl⟩

/-- C5 witness: a 4-byte success on a key-less descriptor populates `bytes`
only; an empty success is a Failure and mutates nothing. -/
theorem segment_response_one_buffer_witness :
    ((handleSegmentResponse sampleSeg false request4).1 = none ∧
      (handleSegmentResponse sampleSeg false request4).2.bytes =
        some (request4.response.drop sampleSeg.lastReachedChar)) ∧
    (handleSegmentResponse sampleSeg false request0).2 = sampleSeg :=
  ⟨⟨((segment_response_one_buffer sampleSeg request4 rfl rfl rfl rfl).1
       (by decide)).1,
    ((segment_response_one_buffer sampleSeg request4 rfl rfl rfl rfl).1
       (by decide)).2.2.2.2 (by decide)⟩,
   ((segment_response_one_buffer sampleSeg request0 rfl rfl rfl rfl).2 rfl).2⟩

/-! ## C2: worst-error selection -/

theorem mostImportant_cons (e x : ErrorRecord) (xs : List ErrorRecord) :
    mostImportant e (x :: xs) =
      mostImportant (if x.code > e.code then x else e) xs := rfl

theorem mostImportant_mem (e : ErrorRecord) (es : List ErrorRecord) :
    mostImportant e es ∈ e :: es := by
  induction es generalizing e with
  | nil => simp [mostImportant]
  | cons x xs ih =>
    rw [mostImportant_cons]
    by_cases h : x.code > e.code
    · rw [if_pos h]
      exact List.mem_cons_of_mem e (ih x)
    · rw [if_neg h]
      rcases List.mem_cons.mp (ih e) with h1 | h2
      · rw [h1]
        exact List.mem_cons_self _ _
      · exact List.mem_cons_of_mem _ (List.mem_cons_of_mem _ h2)

theorem mostImportant_ub (e : ErrorRecord) (es : List ErrorRecord) :
    ∀ y ∈ e :: es, y.code ≤ (mostImportant e es).code := by
  induction es generalizing e with
  | nil => simp [mostImportant]
  | cons x xs ih =>
    intro y hy
    rw [mostImportant_cons]
    have hacc : e.code ≤ (if x.code > e.code then x else e).code ∧
        x.code ≤ (if x.code > e.code then x else e).code := by
      by_cases h : x.code > e.code
      · simp [h]; omega
      · simp [h]; omega
    have hhead := ih (if x.code > e.code then x else e)
      (if x.code > e.code then x else e) (List.mem_cons_self _ _)
    rcases List.mem_cons.mp hy with rfl | hy1
    · exact le_trans hacc.1 hhead
    · rcases List.mem_cons.mp hy1 with rfl | hy2
      · exact le_trans hacc.2 hhead
      · exact ih (if x.code > e.code then x else e) y (List.mem_cons_of_mem _ hy2)

theorem mostImportant_first (e : ErrorRecord) (es : List ErrorRecord) :
    ∃ l₁ l₂, e :: es = l₁ ++ mostImportant e es :: l₂ ∧
      ∀ y ∈ l₁, y.code < (mostImportant e es).code := by
  induction es generalizing e with
  | nil => exact ⟨[], [], rfl, by simp⟩
  | cons x xs ih =>
    rw [mostImportant_cons]
    by_cases h : x.code > e.code
    · rw [if_pos h]
      obtain ⟨l₁, l₂, heq, hlt⟩ := ih x
      refine ⟨e :: l₁, l₂, by rw [List.cons_append, ← heq], ?_⟩
      intro y hy
      rcases List.mem_cons.mp hy with rfl | hy1
      · exact lt_of_lt_of_le h
          (mostImportant_ub x xs x (List.mem_cons_self _ _))
      · exact hlt y hy1
    · rw [if_neg h]
      obtain ⟨l₁, l₂, heq, hlt⟩ := ih e
      cases l₁ with
      | nil =>
        simp only [List.nil_append] at heq
        obtain ⟨he, -⟩ := List.cons.inj heq
        refine ⟨[], x :: xs, ?_, by simp⟩
        rw [List.nil_append, ← he]
      | cons e0 l₁t =>
        have he0 : e = e0 := (List.cons.inj heq).1
        have hxs : xs = l₁t ++ mostImportant e xs :: l₂ := (List.cons.inj heq).2
        refine ⟨e :: x :: l₁t, l₂,
          show e :: x :: xs = e :: x :: (l₁t ++ mostImportant e xs :: l₂) from
            congrArg (fun t => e :: x :: t) hxs, ?_⟩
        intro y hy
        have he_lt : e.code < (mostImportant e xs).code :=
          he0 ▸ hlt e0 (List.mem_cons_self _ _)
        rcases List.mem_cons.mp hy with rfl | hy1
        · exact he_lt
        · rcases List.mem_cons.mp hy1 with rfl | hy2
          · omega
          · exact hlt y (he0 ▸ List.mem_cons_of_mem _ hy2)

/-- C2: `getMostImportantError` returns the first-seen error whose numeric
code is maximal: the returned record is in the list, its code bounds every
code in the list, and every earlier entry has a strictly smaller code; the
concrete sets {Failure, Aborted, Aborted} → Failure,
{Aborted, Timeout, Aborted} → Timeout, and a Failure/Failure tie → the
earlier one. -/
theorem getMostImportantError_first_max (e : ErrorRecord) (es : List ErrorRecord) :
    (∃ r, getMostImportantError (e :: es) = some r ∧
      r ∈ e :: es ∧ (∀ y ∈ e :: es, y.code ≤ r.code) ∧
      ∃ l₁ l₂, e :: es = l₁ ++ r :: l₂ ∧ ∀ y ∈ l₁, y.code < r.code) ∧
    getMostImportantError [errFailure, errAborted1, errAborted2] = some errFailure ∧
    getMostImportantError [errAborted1, errTimeout, errAborted2] = some errTimeout ∧
    getMostImportantError [errFailure, errFailure2] = some errFailure := by
  refine ⟨⟨mostImportant e es, rfl, mostImportant_mem e es, mostImportant_ub e es,
    mostImportant_first e es⟩, by decide, by decide, by decide⟩

/-! ## C7: decryption reply correlation -/

theorem handleDecryptedBytes_preserves (f : InspectFn) (s : Segment) (b : List Nat)
    (fin : Bool) :
    (handleDecryptedBytes f s b fin).seg.key = s.key ∧
    (handleDecryptedBytes f s b fin).seg.map = s.map ∧
    (handleDecryptedBytes f s b fin).seg.lastReachedChar = s.lastReachedChar ∧
    (handleDecryptedBytes f s b fin).seg.bytes = s.bytes ∧
    (handleDecryptedBytes f s b fin).seg.encryptedBytes = s.encryptedBytes := by
  unfold handleDecryptedBytes parseMp4AndNotify
  cases hm : s.map <;> simp [hm]

theorem decryptRun_unregistered (f : InspectFn) (s : DecryptState)
    (evs : List DecryptReply) (h : s.listenerRegistered = false) :
    decryptRun f s evs = s := by
  induction evs with
  | nil => rfl
  | cons r rs ih =>
    have hstep : decryptionMessageStep f s r = s := by
      unfold decryptionMessageStep
      rw [if_neg (by simp [h])]
    show decryptRun f (decryptionMessageStep f s r) rs = s
    rw [hstep]
    exact ih

theorem decryptRun_no_match (f : InspectFn) (segment : Segment)
    (pre : List DecryptReply)
    (hpre : ∀ r ∈ pre, r.source ≠ segment.requestId) :
    decryptRun f (decryptStart segment) pre = decryptStart segment := by
  induction pre with
  | nil => rfl
  | cons r rs ih =>
    have hr : r.source ≠ segment.requestId := hpre r (List.mem_cons_self _ _)
    have hstep : decryptionMessageStep f (decryptStart segment) r =
        decryptStart segment := by
      simp [decryptionMessageStep, decryptStart, hr]
    show decryptRun f (decryptionMessageStep f (decryptStart segment) r) rs = _
    rw [hstep]
    exact ih (fun y hy => hpre y (List.mem_cons_of_mem _ hy))

/-- C7: replies on the shared worker channel whose correlation id differs
from the segment's request id leave both the descriptor and the registered
listener untouched; the first matching reply deregisters the listener,
installs the decrypted payload as the descriptor's final raw bytes, and
makes exactly one parse-dispatch call with `isPartial = false` — later
replies (matching or not) change nothing. -/
theorem decrypt_reply_correlation (f : InspectFn) (segment : Segment)
    (pre : List DecryptReply) (m : DecryptReply) (post : List DecryptReply)
    (hpre : ∀ r ∈ pre, r.source ≠ segment.requestId)
    (hm : m.source = segment.requestId) :
    decryptRun f (decryptStart segment) pre = decryptStart segment ∧
    (decryptRun f (decryptStart segment) (pre ++ m :: post)).listenerRegistered =
      false ∧
    (decryptRun f (decryptStart segment) (pre ++ m :: post)).seg.bytes =
      some (installDecrypted m) ∧
    ∃ c, (decryptRun f (decryptStart segment) (pre ++ m :: post)).dispatches = [c] ∧
      c.bytes = installDecrypted m ∧ c.wasPartial = false := by
  have h1 := decryptRun_no_match f segment pre hpre
  have hsplit : decryptRun f (decryptStart segment) (pre ++ m :: post) =
      decryptRun f
        (decryptionMessageStep f (decryptRun f (decryptStart segment) pre) m) post := by
    simp [decryptRun, List.foldl_append]
  rw [hsplit, h1]
  have hstep : decryptionMessageStep f (decryptStart segment) m =
      { listenerRegistered := false
        seg := (handleDecryptedBytes f
          { segment with bytes := some (installDecrypted m) }
          (installDecrypted m) true).seg
        dispatches := [{ bytes := installDecrypted m, wasPartial := false
                         consumed := (handleDecryptedBytes f
                           { segment with bytes := some (installDecrypted m) }
                           (installDecrypted m) true).consumed }] } := by
    simp [decryptionMessageStep, decryptStart, hm]
  rw [hstep, decryptRun_unregistered f _ post rfl]
  refine ⟨rfl, rfl, ?_, ⟨_, rfl, rfl, rfl⟩⟩
  rw [(handleDecryptedBytes_preserves f _ _ true).2.2.2.1]

/-- A reply with a foreign correlation id. -/
def replyOther : DecryptReply := { source := 5, bytes := [1], byteOffset := 0, byteLength := 1 }
/-- The matching reply for `sampleSeg` (request id 7). -/
def replyMatch : DecryptReply := { source := 7, bytes := [9, 8, 7], byteOffset := 1, byteLength := 2 }
/-- A late matching reply, delivered after deregistration. -/
def replyLate : DecryptReply := { source := 7, bytes := [4], byteOffset := 0, byteLength := 1 }

/-- C7 witness: a foreign reply, the matching reply, then a late reply, at
concrete inputs. -/
theorem decrypt_reply_correlation_witness :
    (decryptRun idleInspect (decryptStart sampleSeg)
      ([replyOther] ++ replyMatch :: [replyLate])).listenerRegistered = false ∧
    (decryptRun idleInspect (decryptStart sampleSeg)
      ([replyOther] ++ replyMatch :: [replyLate])).seg.bytes =
      some (installDecrypted replyMatch) := by
  have h := decrypt_reply_correlation idleInspect sampleSeg [replyOther] replyMatch
    [replyLate] (by decide) rfl
  exact ⟨h.2.1, h.2.2.1⟩

/-! ## C1 and C8: the completion tracker -/

theorem waitStep_fst (n : Nat) (s : TrackerState) (inv : Option ErrorRecord × Segment) :
    (waitStep n s inv).1 =
      match inv.1 with
      | some e => { errors := s.errors ++ [e], count := s.count + 1
                    abortCalls := s.abortCalls + 1 }
      | none => { s with count := s.count + 1 } := by
  obtain ⟨o, sg⟩ := inv
  cases o <;> (simp only [waitStep]; split <;> rfl)

theorem waitStep_snd (n : Nat) (s : TrackerState) (inv : Option ErrorRecord × Segment) :
    (waitStep n s inv).2 =
      if (waitStep n s inv).1.count = n
      then some (handoffFor (waitStep n s inv).1.errors inv.2) else none := by
  obtain ⟨o, sg⟩ := inv
  cases o <;> (simp only [waitStep]; split <;> simp_all [waitStep_fst])

theorem waitRun_tracker (n : Nat) (s : TrackerState)
    (invs : List (Option ErrorRecord × Segment)) :
    (waitRun n s invs).1 =
      { errors := s.errors ++ invs.filterMap Prod.fst
        count := s.count + invs.length
        abortCalls := s.abortCalls + (invs.filterMap Prod.fst).length } := by
  induction invs generalizing s with
  | nil => simp [waitRun]
  | cons a rest ih =>
    obtain ⟨oa, sa⟩ := a
    show (waitRun n (waitStep n s (oa, sa)).1 rest).1 = _
    rw [ih, waitStep_fst]
    cases oa <;>
      simp [List.filterMap_cons, Nat.add_assoc, Nat.add_comm, Nat.add_left_comm]

/-- C1: for N ∈ {1,2,3} tracked requests completing in any order, the
tracker emits no hand-off on the first N−1 callbacks and exactly one on the
N-th, and that hand-off is the worst accumulated error if any error arrived,
else the decryption path if `encryptedBytes` is set, else the final
dispatch of `segment.bytes` (one of the three, by `handoffFor`). -/
theorem completion_handoff_once (front : List (Option ErrorRecord × Segment))
    (last : Option ErrorRecord × Segment)
    (hn : front.length + 1 = 1 ∨ front.length + 1 = 2 ∨ front.length + 1 = 3) :
    (waitRun (front ++ [last]).length initTracker (front ++ [last])).2 =
      List.replicate front.length none ++
        [some (handoffFor ((front ++ [last]).filterMap Prod.fst) last.2)] := by
  obtain ⟨ol, sl⟩ := last
  rcases front with _ | ⟨⟨oa, sa⟩, _ | ⟨⟨ob, sb⟩, _ | ⟨⟨oc, sc⟩, rest⟩⟩⟩
  · cases ol <;> simp [waitRun, waitStep, initTracker]
  · cases oa <;> cases ol <;>
      simp [waitRun, waitStep, initTracker, List.filterMap_cons]
  · cases oa <;> cases ob <;> cases ol <;>
      simp [waitRun, waitStep, initTracker, List.filterMap_cons]
  · simp at hn

/-- A descriptor holding encrypted bytes, as after an encrypted fetch. -/
def segEnc : Segment := { sampleSeg with encryptedBytes := some [1, 2] }

/-- C1 witness: two requests, an error then a clean completion. -/
theorem completion_handoff_once_witness :
    (waitRun ([(some errTimeout, sampleSeg)] ++ [(none, segEnc)]).length initTracker
      ([(some errTimeout, sampleSeg)] ++ [(none, segEnc)])).2 =
      List.replicate 1 none ++
        [some (handoffFor
          (([(some errTimeout, sampleSeg)] ++ [(none, segEnc)]).filterMap Prod.fst)
          segEnc)] :=
  completion_handoff_once [(some errTimeout, sampleSeg)] (none, segEnc)
    (Or.inr (Or.inl rfl))

/-- C8 counterexample: with two completions that both carry an error (a
timeout and the abort it cascades into), `abortAll` runs twice, so every
tracked request's `abort()` is called twice — not exactly once. -/
theorem abort_exactly_once_counterexample :
    (waitRun 2 initTracker
      [(some errTimeout, sampleSeg), (some errAborted1, sampleSeg)]).1.abortCalls = 2 ∧
    (2 : Nat) ≠ 1 := by decide

/-- C8 amended: each completion that carries an error triggers one
`abortAll` over the in-flight set, so every other request receives one
cancellation call per errored completion (hence at least one, and possibly
more when cancellations cascade), and the error is appended to the
accumulator before the hand-off decision is made. -/
theorem abort_on_every_error (n : Nat) (invs : List (Option ErrorRecord × Segment)) :
    ((waitRun n initTracker invs).1.abortCalls =
      (invs.filterMap Prod.fst).length) ∧
    ((waitRun n initTracker invs).1.errors = invs.filterMap Prod.fst) ∧
    (∀ s inv h, (waitStep n s inv).2 = some h →
      h = handoffFor (waitStep n s inv).1.errors inv.2 ∧
      ∀ e, inv.1 = some e → e ∈ (waitStep n s inv).1.errors) := by
  refine ⟨?_, ?_, ?_⟩
  · rw [waitRun_tracker]
    simp [initTracker]
  · rw [waitRun_tracker]
    simp [initTracker]
  · intro s inv h hsome
    obtain ⟨o, sg⟩ := inv
    rw [waitStep_snd] at hsome
    by_cases hcount : (waitStep n s (o, sg)).1.count = n
    · rw [if_pos hcount] at hsome
      obtain rfl := (Option.some.inj hsome).symm
      refine ⟨rfl, ?_⟩
      intro e he
      simp only at he
      subst he
      rw [waitStep_fst]
      simp
    · rw [if_neg hcount] at hsome
      exact absurd hsome (by simp)

/-! ## C3: progress parsing is deferred for encrypted / pending-init segments -/

theorem canPartialParse_false_of (segment : Segment)
    (h : segment.key.isSome = true ∨ ∃ m, segment.map = some m ∧ m.bytes = none) :
    canPartialParse segment = false := by
  unfold canPartialParse
  rcases h with hk | ⟨m, hm, hb⟩
  · simp [hk]
  · simp [hm, hb]

/-- The box-scanning loop of `completeMp4BoxesOffset` in
`src/unnamed/part_000`: `offset` is the offset past the last complete box,
`remaining` the bytes left from there.  A zero box length means
last-box-extends-to-end-of-file and is honoured only when
`reachesEndOfFile`; a box longer than the remainder stops the scan. -/
def completeMp4BoxesOffsetLoop (bytesList : List Nat) (reachesEndOfFile : Bool)
    (offset remaining : Nat) : Nat :=
  if h8 : 8 ≤ remaining then
    let boxLength := getUint32 bytesList offset
    if h0 : boxLength = 0 then
      if !reachesEndOfFile then offset
      else offset + remaining
    else
      if hlt : remaining < boxLength then offset
      else
        completeMp4BoxesOffsetLoop bytesList reachesEndOfFile
          (offset + boxLength) (remaining - boxLength)
  else offset
termination_by remaining
decreasing_by omega

/-- `completeMp4BoxesOffset(bytes, reachesEndOfFile)` of
`src/unnamed/part_000`. -/
def completeMp4BoxesOffset (bytesList : List Nat) (reachesEndOfFile : Bool) : Nat :=
  completeMp4BoxesOffsetLoop bytesList reachesEndOfFile 0 bytesList.length

/-- The external box assembly of part_000's `parseMp4AndNotify`: mux.js
`inspectMp4` over the complete-box prefix plus the `styp`/`moof`/`sidx`/
`mdat` raw-data extraction driven by mux.js `parseBoxType`.  Abstracted as a
collaborator `(complete-box prefix, prior boxes record, full buffer) ↦
(new boxes record, bytes handed to dataFn)`. -/
abbrev BoxAssembler := List Nat → List Nat → List Nat → List Nat × List Nat

/-- `parseMp4AndNotify` of `src/unnamed/part_000`: the consumed count is the
locally computed `completeMp4BoxesOffset(bytes, isPartial)` (the source
passes the partial flag as `reachesEndOfFile`); `segment.boxes` is first
defaulted (`segment.boxes || {}`) and then updated by the external assembly
`g`; a non-empty assembled result is handed to `dataFn`. -/
def parseMp4AndNotifyPart000 (g : BoxAssembler) (segment : Segment)
    (bytesIn : List Nat) (partialFlag : Bool) : DispatchResult :=
  let completeBoxesOffset := completeMp4BoxesOffset bytesIn partialFlag
  let assembled := g (bytesIn.take completeBoxesOffset) (segment.boxes.getD []) bytesIn
  { seg := { segment with boxes := some assembled.1 }
    dataEvents := if assembled.2.length ≠ 0 then [assembled.2] else []
    consumed := completeBoxesOffset }

/-- `handleDecryptedBytes` of `src/unnamed/part_000` (same dispatch shape as
the src/src variant; the mp4 path differs). -/
def handleDecryptedBytesPart000 (g : BoxAssembler) (segment : Segment)
    (bytesIn : List Nat) (partialFlag : Bool) : DispatchResult :=
  match segment.map with
  | some _ => parseMp4AndNotifyPart000 g segment bytesIn partialFlag
  | none => { seg := segment, dataEvents := [], consumed := bytesIn.length }

/-- `handleProgress` of `src/unnamed/part_000`: the guard is only
`!segment.key` — a pending init segment does NOT defer parsing in this
variant. -/
def handleProgressPart000 (g : BoxAssembler) (segment : Segment)
    (responseText : List Nat) (loaded now requestTime : Nat) : ProgressResult :=
  let step :=
    if !segment.key.isSome then
      let newBytes := responseText.drop segment.lastReachedChar
      let d := handleDecryptedBytesPart000 g segment newBytes true
      ({ d.seg with lastReachedChar := d.seg.lastReachedChar + d.consumed },
       some { bytes := newBytes, wasPartial := true, consumed := d.consumed })
    else (segment, none)
  let seg1 := step.1
  let stats1 := mergeStats seg1.stats (getProgressStats loaded now requestTime)
  let stats2 :=
    if stats1.firstBytesReceivedAt.isNone && stats1.bytesReceived ≠ 0 then
      { stats1 with firstBytesReceivedAt := some now }
    else stats1
  { seg := { seg1 with stats := some stats2 }, dispatch := step.2 }

theorem handleDecryptedBytesPart000_preserves (g : BoxAssembler) (s : Segment)
    (b : List Nat) (p : Bool) :
    (handleDecryptedBytesPart000 g s b p).seg.lastReachedChar = s.lastReachedChar ∧
    (handleDecryptedBytesPart000 g s b p).seg.key = s.key ∧
    (handleDecryptedBytesPart000 g s b p).seg.map = s.map := by
  unfold handleDecryptedBytesPart000 parseMp4AndNotifyPart000
  cases hm : s.map <;> simp [hm]

/-- A descriptor whose init-segment bytes are still pending. -/
def segPendingInit : Segment :=
  { sampleSeg with map := some { resolvedUri := "init.mp4", bytes := none } }

/-- One complete 8-byte mp4 box. -/
def boxBytes : List Nat := [0, 0, 0, 8, 1, 2, 3, 4]

/-- A box assembler that stores nothing and emits nothing: a legal
collaborator behaviour. -/
def trivialAssembler : BoxAssembler := fun _ prior _ => (prior, [])

theorem completeMp4BoxesOffset_boxBytes : completeMp4BoxesOffset boxBytes true = 8 := by
  unfold completeMp4BoxesOffset
  rw [completeMp4BoxesOffsetLoop]
  norm_num [getUint32, boxBytes]
  rw [completeMp4BoxesOffsetLoop]
  norm_num

/-- C3 counterexample: in the `src/unnamed/part_000` variant of
`handleProgress` (also cited by the claim), a key-less segment whose
init-segment bytes are still pending IS dispatched to the mp4 parse path on
a progress event: the dispatcher is invoked, the cursor advances by the
complete-box offset (8 here) and the parser state (`boxes`) is mutated from
`none`, refuting the claim at this concrete input. -/
theorem progress_defers_counterexample :
    segPendingInit.key = none ∧
    (∃ m, segPendingInit.map = some m ∧ m.bytes = none) ∧
    segPendingInit.lastReachedChar = 0 ∧
    (handleProgressPart000 trivialAssembler segPendingInit boxBytes 8 1 0).dispatch.isSome
      = true ∧
    (handleProgressPart000 trivialAssembler segPendingInit
      boxBytes 8 1 0).seg.lastReachedChar = 8 ∧
    (handleProgressPart000 trivialAssembler segPendingInit boxBytes 8 1 0).seg.boxes ≠
      segPendingInit.boxes := by
  refine ⟨rfl, ⟨_, rfl, rfl⟩, rfl, ?_, ?_, ?_⟩ <;>
    simp [handleProgressPart000, handleDecryptedBytesPart000,
      parseMp4AndNotifyPart000, segPendingInit, sampleSeg, trivialAssembler,
      completeMp4BoxesOffset_boxBytes]

/-- C3 (amended): in the src/src variant, a progress event on a segment with
a key or with pending init-segment bytes never reaches the parse dispatcher,
leaves the cursor and the parser state untouched, and the final completion
still consumes the whole byte range from that cursor; in the
src/unnamed/part_000 variant only the key guard exists: a keyed segment's
progress event likewise never dispatches and leaves cursor and parser state
unchanged, but a key-less segment (even with pending init bytes) is
dispatched, its cursor advancing by the dispatcher's consumed count. -/
theorem progress_defers_when_key_or_pending_init (f : InspectFn) (g : BoxAssembler)
    (segment : Segment)
    (responseText : List Nat) (loaded now requestTime : Nat)
    (h : segment.key.isSome = true ∨ ∃ m, segment.map = some m ∧ m.bytes = none) :
    (handleProgress f segment responseText loaded now requestTime).dispatch = none ∧
    (handleProgress f segment responseText loaded now requestTime).seg.lastReachedChar
      = segment.lastReachedChar ∧
    (handleProgress f segment responseText loaded now requestTime).seg.boxes =
      segment.boxes ∧
    (∀ request : Request, request.timedout = false → request.aborted = false →
      request.response.length ≠ 0 →
      (if segment.key.isSome then
        (handleSegmentResponse
          (handleProgress f segment responseText loaded now requestTime).seg
          false request).2.encryptedBytes
       else
        (handleSegmentResponse
          (handleProgress f segment responseText loaded now requestTime).seg
          false request).2.bytes) =
        some (request.response.drop segment.lastReachedChar)) ∧
    (segment.key.isSome = true →
      (handleProgressPart000 g segment responseText loaded now requestTime).dispatch
        = none ∧
      (handleProgressPart000 g segment responseText loaded now
        requestTime).seg.lastReachedChar = segment.lastReachedChar ∧
      (handleProgressPart000 g segment responseText loaded now requestTime).seg.boxes
        = segment.boxes) ∧
    (segment.key = none →
      (handleProgressPart000 g segment responseText loaded now
        requestTime).dispatch.isSome = true ∧
      (handleProgressPart000 g segment responseText loaded now
        requestTime).seg.lastReachedChar =
        segment.lastReachedChar +
          (handleDecryptedBytesPart000 g segment
            (responseText.drop segment.lastReachedChar) true).consumed) := by
  have hcan := canPartialParse_false_of segment h
  have hseg : (handleProgress f segment responseText loaded now requestTime).seg.key
      = segment.key ∧
      (handleProgress f segment responseText loaded now
        requestTime).seg.lastReachedChar = segment.lastReachedChar ∧
      (handleProgress f segment responseText loaded now requestTime).seg.boxes =
        segment.boxes := by
    simp [handleProgress, hcan]
  refine ⟨by simp [handleProgress, hcan], hseg.2.1, hseg.2.2, ?_, ?_, ?_⟩
  · intro request ht ha hne
    have herr : handleErrors false request = none := by
      simp [handleErrors, ht, ha]
    cases hk : segment.key.isSome
    · rw [if_neg (by simp [hk])]
      simp only [handleSegmentResponse, herr]
      rw [if_neg hne, if_neg (by simp [hseg.1, hk])]
      simp [hseg.2.1]
    · rw [if_pos (by simp [hk])]
      simp only [handleSegmentResponse, herr]
      rw [if_neg hne, if_pos (by simp [hseg.1, hk])]
      simp [hseg.2.1]
  · intro hk
    refine ⟨?_, ?_, ?_⟩ <;> simp [handleProgressPart000, hk]
  · intro hk0
    constructor
    · simp [handleProgressPart000, hk0]
    · simp only [handleProgressPart000, hk0, Option.isSome_none, Bool.not_false,
        if_pos]
      simp [(handleDecryptedBytesPart000_preserves g segment
        (responseText.drop segment.lastReachedChar) true).1]

/-- C3 witness: a keyed segment at a concrete progress event and final
completion, in both variants. -/
theorem progress_defers_when_key_or_pending_init_witness :
    (handleProgress idleInspect segWithKey [1, 2, 3] 3 10 5).dispatch = none ∧
    (handleSegmentResponse
      (handleProgress idleInspect segWithKey [1, 2, 3] 3 10 5).seg
      false request4).2.encryptedBytes =
      some (request4.response.drop segWithKey.lastReachedChar) ∧
    (handleProgressPart000 trivialAssembler segWithKey [1, 2, 3] 3 10 5).dispatch
      = none := by
  have h := progress_defers_when_key_or_pending_init idleInspect trivialAssembler
    segWithKey [1, 2, 3] 3 10 5 (Or.inl rfl)
  exact ⟨h.1, h.2.2.2.1 request4 rfl rfl (by decide), (h.2.2.2.2.1 rfl).1⟩

/-! ## C4: cursor monotonicity over progress events -/

/-- One progress event seen through `handleProgress` (the event's stats
arguments do not touch the cursor, so the run fixes them at 0). -/
def progressStep (f : InspectFn) (s : Segment) (t : List Nat) : Segment :=
  (handleProgress f s t 0 0 0).seg

/-- The descriptor after a sequence of progress events whose response texts
are `texts`. -/
def progressRunSeg (f : InspectFn) (s : Segment) (texts : List (List Nat)) : Segment :=
  texts.foldl (progressStep f) s

/-- The consumed byte count the dispatcher reports for one progress event. -/
def progressConsumed (f : InspectFn) (s : Segment) (t : List Nat) : Nat :=
  (handleDecryptedBytes f s (t.drop s.lastReachedChar) false).consumed

/-- The consumed byte counts reported along a run. -/
def consumedList (f : InspectFn) (s : Segment) : List (List Nat) → List Nat
  | [] => []
  | t :: ts => progressConsumed f s t :: consumedList f (progressStep f s t) ts

theorem handleDecryptedBytes_consumed_le (f : InspectFn)
    (hf : ∀ b fin prior, (f b fin prior).numUsedBytes ≤ b.length)
    (s : Segment) (b : List Nat) (fin : Bool) :
    (handleDecryptedBytes f s b fin).consumed ≤ b.length := by
  unfold handleDecryptedBytes parseMp4AndNotify
  cases hm : s.map with
  | none => simp
  | some m => simpa using hf b fin s.boxes

theorem progressStep_preserves (f : InspectFn) (s : Segment) (t : List Nat) :
    (progressStep f s t).key = s.key ∧ (progressStep f s t).map = s.map := by
  unfold progressStep handleProgress
  by_cases hc : canPartialParse s <;>
    simp [hc, (handleDecryptedBytes_preserves f s (t.drop s.lastReachedChar) false).1,
      (handleDecryptedBytes_preserves f s (t.drop s.lastReachedChar) false).2.1]

theorem progressStep_canPartialParse (f : InspectFn) (s : Segment) (t : List Nat) :
    canPartialParse (progressStep f s t) = canPartialParse s := by
  unfold canPartialParse
  rw [(progressStep_preserves f s t).1, (progressStep_preserves f s t).2]

theorem progressStep_cursor (f : InspectFn) (s : Segment) (t : List Nat)
    (hc : canPartialParse s = true) :
    (progressStep f s t).lastReachedChar =
      s.lastReachedChar + progressConsumed f s t := by
  unfold progressStep handleProgress progressConsumed
  simp [hc,
    (handleDecryptedBytes_preserves f s (t.drop s.lastReachedChar) false).2.2.1]

theorem progressRunSeg_canPartialParse (f : InspectFn) (texts : List (List Nat))
    (s : Segment) : canPartialParse (progressRunSeg f s texts) = canPartialParse s := by
  induction texts generalizing s with
  | nil => rfl
  | cons t ts ih =>
    show canPartialParse (progressRunSeg f (progressStep f s t) ts) = _
    rw [ih, progressStep_canPartialParse]

theorem progressRunSeg_key (f : InspectFn) (texts : List (List Nat))
    (s : Segment) : (progressRunSeg f s texts).key = s.key := by
  induction texts generalizing s with
  | nil => rfl
  | cons t ts ih =>
    show (progressRunSeg f (progressStep f s t) ts).key = _
    rw [ih, (progressStep_preserves f s t).1]

theorem progressRunSeg_cursor (f : InspectFn) (texts : List (List Nat))
    (s : Segment) (hc : canPartialParse s = true) :
    (progressRunSeg f s texts).lastReachedChar =
      s.lastReachedChar + (consumedList f s texts).sum := by
  induction texts generalizing s with
  | nil => simp [progressRunSeg, consumedList]
  | cons t ts ih =>
    show (progressRunSeg f (progressStep f s t) ts).lastReachedChar = _
    rw [ih (progressStep f s t) (by rw [progressStep_canPartialParse]; exact hc),
      progressStep_cursor f s t hc]
    simp [consumedList, Nat.add_assoc]

theorem progressRunSeg_cursor_le (f : InspectFn)
    (hf : ∀ b fin prior, (f b fin prior).numUsedBytes ≤ b.length)
    (texts : List (List Nat)) (B : Nat) (s : Segment)
    (hc : canPartialParse s = true) (hs : s.lastReachedChar ≤ B)
    (hts : ∀ t ∈ texts, t.length ≤ B) :
    (progressRunSeg f s texts).lastReachedChar ≤ B := by
  induction texts generalizing s with
  | nil => simpa [progressRunSeg]
  | cons t ts ih =>
    show (progressRunSeg f (progressStep f s t) ts).lastReachedChar ≤ B
    refine ih (progressStep f s t)
      (by rw [progressStep_canPartialParse]; exact hc) ?_
      (fun y hy => hts y (List.mem_cons_of_mem _ hy))
    rw [progressStep_cursor f s t hc]
    have h1 : progressConsumed f s t ≤ (t.drop s.lastReachedChar).length :=
      handleDecryptedBytes_consumed_le f hf s _ false
    have h2 : (t.drop s.lastReachedChar).length = t.length - s.lastReachedChar := by
      simp
    have h3 : t.length ≤ B := hts t (List.mem_cons_self _ _)
    omega

theorem progressRunSeg_take_succ (f : InspectFn) (s : Segment)
    (texts : List (List Nat)) (i : Nat) (hi : i < texts.length) :
    progressRunSeg f s (texts.take (i + 1)) =
      progressStep f (progressRunSeg f s (texts.take i)) (texts.get ⟨i, hi⟩) := by
  rw [← List.take_concat_get texts i hi]
  simp only [progressRunSeg, List.concat_eq_append, List.foldl_append,
    List.foldl_cons, List.foldl_nil, List.get_eq_getElem]

/-- C4: on a key-less segment with a 0 cursor whose init segment (if any) is
already fetched, each progress event advances the cursor by exactly the
consumed count the dispatcher reported (hence monotonically), the total
consumption equals the final cursor and never exceeds the largest response
text supplied, and the final completion extracts the bytes starting exactly
where the last partial consumption ended. -/
theorem cursor_monotone (f : InspectFn) (segment : Segment)
    (texts : List (List Nat)) (request : Request)
    (hf : ∀ b fin prior, (f b fin prior).numUsedBytes ≤ b.length)
    (hc : canPartialParse segment = true)
    (h0 : segment.lastReachedChar = 0)
    (hts : ∀ t ∈ texts, t.length ≤ request.response.length)
    (ht : request.timedout = false) (ha : request.aborted = false)
    (hne : request.response.length ≠ 0) :
    (∀ i (hi : i < texts.length),
      (progressRunSeg f segment (texts.take (i + 1))).lastReachedChar =
        (progressRunSeg f segment (texts.take i)).lastReachedChar +
          progressConsumed f (progressRunSeg f segment (texts.take i))
            (texts.get ⟨i, hi⟩)) ∧
    (progressRunSeg f segment texts).lastReachedChar =
      (consumedList f segment texts).sum ∧
    (consumedList f segment texts).sum ≤ request.response.length ∧
    (handleSegmentResponse (progressRunSeg f segment texts) false request).2.bytes =
      some (request.response.drop ((consumedList f segment texts).sum)) := by
  have hkey : segment.key = none := by
    unfold canPartialParse at hc
    cases hk : segment.key with
    | none => rfl
    | some k => rw [hk] at hc; simp at hc
  have hcur : (progressRunSeg f segment texts).lastReachedChar =
      (consumedList f segment texts).sum := by
    rw [progressRunSeg_cursor f texts segment hc, h0, Nat.zero_add]
  refine ⟨?_, hcur, ?_, ?_⟩
  · intro i hi
    rw [progressRunSeg_take_succ f segment texts i hi]
    exact progressStep_cursor f _ _
      (by rw [progressRunSeg_canPartialParse]; exact hc)
  · rw [← hcur]
    exact progressRunSeg_cursor_le f hf texts request.response.length segment hc
      (by omega) hts
  · have herr : handleErrors false request = none := by
      simp [handleErrors, ht, ha]
    simp only [handleSegmentResponse, herr]
    rw [if_neg hne,
      if_neg (by simp [progressRunSeg_key f texts segment, hkey])]
    simp [hcur]

/-- C4 witness: two progress events on a plain segment with the idle
inspector (a collaborator that consumes nothing), then the final 4-byte
completion. -/
theorem cursor_monotone_witness :
    (progressRunSeg idleInspect sampleSeg [[1], [1, 2, 3]]).lastReachedChar =
      (consumedList idleInspect sampleSeg [[1], [1, 2, 3]]).sum ∧
    (handleSegmentResponse (progressRunSeg idleInspect sampleSeg [[1], [1, 2, 3]])
      false request4).2.bytes =
      some (request4.response.drop
        ((consumedList idleInspect sampleSeg [[1], [1, 2, 3]]).sum)) := by
  have h := cursor_monotone idleInspect sampleSeg [[1], [1, 2, 3]] request4
    (fun b fin prior => by simp [idleInspect]) rfl rfl (by decide) rfl rfl
    (by decide)
  exact ⟨h.2.1, h.2.2.2⟩

end MSR
